import Mathlib

/-!
Verification of the trust-diary service protocol core.

This file shallowly embeds the protocol layer of the repository's two main
service implementations:

* `src/service/trust-diary-service.js` (Node.js service) — the per-peer
  authentication state machine (`handlePeerJoin`, `handleAuthResponse`),
  the entry log and its append endpoint, the trust store endpoints, the
  entry delivery functions (`sendEntriesToPeer`, `broadcastEntry`,
  `encryptForPeer`), identity loading (`loadIdentity`) and room-id
  derivation (`generateRoomId`).
* `src/go-service/main.go` (Go service) — entry request handling
  (`handleEntryRequest`, `sendEntriesToPeer`) and identity loading
  (`loadOrGenerateIdentity`).

Modelling conventions:

* JavaScript `Map` objects become association lists with the exact
  `Map.set`/`Map.get`/`Map.delete` semantics (`mset` replaces an existing
  binding in place, otherwise appends; insertion order is preserved).
* Cryptographic primitives from tweetnacl (`nacl.sign.detached.verify`,
  `nacl.box`, `nacl.hash`) are external library calls; they are modelled
  as function parameters (`verify`, `box`, `hash`).  Base64 values that
  the code passes around as strings stay strings; raw byte strings are
  `List Nat`.  Base64 encoding (`naclUtil.encodeBase64`) and UTF-8
  encoding (`naclUtil.decodeUTF8`) are implemented concretely.
* Values produced by the environment (random challenge bytes, clock
  readings, message contents) arrive as fields of the triggering `Event`.
* The JS service sends through trystero action senders called with no
  target peer (`sendChallenge({...})`, `sendEntry(encrypted)`), which
  transmit to every peer in the room.  A step's output therefore lists
  one `(receiving peerId, message)` pair per room peer for each such
  send.  The constructor `OutMsg.entryFor` records the encryption key the
  payload is sealed for (the intended recipient's bound box key) together
  with the plaintext cargo; the actual `nacl.box` call is factored into
  `encryptForPeer`.
* File I/O in identity loading is modelled by passing the file content as
  an `Option String` (missing/unreadable = `none`) and `JSON.parse` plus
  key decoding as a `parse` function parameter.
-/

namespace TrustDiary

/-- A trust-store record, `src/service/trust-diary-service.js` lines 419-432:
the value stored under a peer's signing public key. -/
structure TrustRecord where
  boxPublicKey : String
  name : String
  permissions : List String
  trustedAt : Nat
deriving Repr, DecidableEq

/-- The connection states that appear in `trust-diary-service.js`
(`'challenging'`, `'untrusted'`, `'authenticated'`); no other state string
is ever assigned in the source. -/
inductive ConnState where
  | challenging
  | untrusted
  | authenticated
deriving Repr, DecidableEq

/-- A per-peer connection record as built by `handlePeerJoin` and mutated by
`handleAuthResponse`.  Fields that the source adds only later
(`publicKey`, `name`) are `Option`s that start as `none`. -/
structure Conn where
  state : ConnState
  challenge : String
  publicKey : Option String
  permissions : List String
  name : Option String
  joinedAt : Nat
deriving Repr, DecidableEq

/-- A diary entry as built by the `/api/entries` POST handler:
`{ id, content, timestamp, author }`. -/
structure DiaryEntry where
  id : Nat
  content : String
  timestamp : Nat
  author : String
deriving Repr, DecidableEq

/-- JavaScript `Map.get`: the value bound to `k`, if any. -/
def mget {α : Type} (m : List (String × α)) (k : String) : Option α :=
  match m.find? (fun kv => kv.1 == k) with
  | some kv => some kv.2
  | none => none

/-- JavaScript `Map.has` (also the `map[key] != nil` check in Go). -/
def mhas {α : Type} (m : List (String × α)) (k : String) : Bool :=
  m.any (fun kv => kv.1 == k)

/-- JavaScript `Map.set`: replace the binding of `k` in place if present
(insertion order preserved), otherwise append a new binding. -/
def mset {α : Type} (m : List (String × α)) (k : String) (v : α) : List (String × α) :=
  if mhas m k then m.map (fun kv => if kv.1 = k then (k, v) else kv)
  else m ++ [(k, v)]

/-- JavaScript `Map.delete`. -/
def mdel {α : Type} (m : List (String × α)) (k : String) : List (String × α) :=
  m.filter (fun kv => !(kv.1 == k))

/-- The base64 alphabet used by `naclUtil.encodeBase64`. -/
def base64Chars : List Char :=
  "ABCDEFGHIJKLMNOPQRSTUVWXYZabcdefghijklmnopqrstuvwxyz0123456789+/".toList

/-- Character for a 6-bit group. -/
def b64Char (n : Nat) : Char := base64Chars.getD n 'A'

/-- Standard base64 encoding of a byte string (`naclUtil.encodeBase64`). -/
def base64Encode : List Nat → String
  | [] => ""
  | [a] =>
    String.mk [b64Char (a / 4), b64Char (a % 4 * 16), '=', '=']
  | [a, b] =>
    String.mk [b64Char (a / 4), b64Char (a % 4 * 16 + b / 16), b64Char (b % 16 * 4), '=']
  | a :: b :: c :: rest =>
    String.mk [b64Char (a / 4), b64Char (a % 4 * 16 + b / 16),
               b64Char (b % 16 * 4 + c / 64), b64Char (c % 64)]
      ++ base64Encode rest

/-- UTF-8 bytes of one character (`naclUtil.decodeUTF8` acts on the whole
string). -/
def utf8EncodeChar (c : Char) : List Nat :=
  let n := c.toNat
  if n < 128 then [n]
  else if n < 2048 then [192 + n / 64, 128 + n % 64]
  else if n < 65536 then [224 + n / 4096, 128 + n / 64 % 64, 128 + n % 64]
  else [240 + n / 262144, 128 + n / 4096 % 64, 128 + n / 64 % 64, 128 + n % 64]

/-- UTF-8 bytes of a string (`naclUtil.decodeUTF8`). -/
def utf8Encode (s : String) : List Nat :=
  (s.data.map utf8EncodeChar).flatten

/-- The service state of `trust-diary-service.js`: the trusted-key map, the
entry log, the per-peer connection map, and the configuration/identity
data that room-id derivation reads. -/
structure ServiceState where
  trustedKeys : List (String × TrustRecord)
  entries : List DiaryEntry
  connections : List (String × Conn)
  roomSalt : String
  identityPublicKey : List Nat
  identityBoxPublicKey : List Nat
deriving Repr, DecidableEq

/-- Base64 string of the service signing public key (`getPublicKeyString`). -/
def getPublicKeyString (s : ServiceState) : String :=
  base64Encode s.identityPublicKey

/-- Base64 string of the service encryption public key
(`getBoxPublicKeyString`). -/
def getBoxPublicKeyString (s : ServiceState) : String :=
  base64Encode s.identityBoxPublicKey

/-- Room-id derivation, `trust-diary-service.js` lines 182-188:
hash the string `roomSalt ++ ":" ++ base64(signPublicKey)` and keep the
first 20 characters of the base64 of the digest.  The hash function
(`nacl.hash`, SHA-512) is an external primitive passed as a parameter. -/
def generateRoomId (hash : List Nat → List Nat) (s : ServiceState) : String :=
  let material := s.roomSalt ++ ":" ++ getPublicKeyString s
  (base64Encode (hash (utf8Encode material))).take 20

/-- Modelled from the spec's words for the refinement half of claim C5:
"`hash(salt || serviceIdentity.signPublicKey)` (service model), truncated
to a transport-compatible length", a pure function of the salt and the
signing public key alone. -/
def roomIdSpec (hash : List Nat → List Nat) (salt : String) (signPublicKey : List Nat) : String :=
  (base64Encode (hash (utf8Encode (salt ++ ":" ++ base64Encode signPublicKey)))).take 20

/-- A wire message of the JS service.  `challengeMsg` carries the challenge
and the service's two public keys (`handlePeerJoin`); `entryFor` records
an `entry` message: the bound encryption public key the ciphertext is
sealed for and the entry `encryptForPeer` seals.  Each message is
broadcast to the whole room (targetless trystero send); a step's output
tags one copy per receiving peer. -/
inductive OutMsg where
  | challengeMsg (challenge servicePublicKey serviceBoxPublicKey : String)
  | entryFor (peerBoxPublicKey : String) (entry : DiaryEntry)
deriving Repr, DecidableEq

/-- An encrypted wire payload as returned by `encryptForPeer`
(lines 324-338): the fresh nonce and the ciphertext, both base64. -/
structure EncryptedPayload where
  nonce : String
  encrypted : String
deriving Repr, DecidableEq

/-- `nacl.box.nonceLength`: 24 bytes. -/
def boxNonceLength : Nat := 24

/-- The body of `encryptForPeer` (lines 324-338): seal the JSON of the data
with `nacl.box` under a nonce of `nacl.randomBytes(nacl.box.nonceLength)`
and transmit the nonce alongside the ciphertext.  `box` is the external
`nacl.box` primitive (plaintext, nonce bytes, peer public key, own secret
key); `nonce` is the fresh random value the environment produced for this
single call. -/
def encryptForPeer (box : String → List Nat → String → String → String)
    (mySecretKey : String) (dataJson : String) (nonce : List Nat)
    (peerBoxPublicKey : String) : EncryptedPayload :=
  { nonce := base64Encode nonce,
    encrypted := box dataJson nonce peerBoxPublicKey mySecretKey }

/-- `sendEntriesToPeer` (lines 310-322): if the connection exists and is
authenticated and the recorded key is still trusted, call
`p2pActions.sendEntry(encrypted)` once per log entry, in log order.  The
trystero action sender is called with no target peer, so each of these
sends transmits the (per-recipient-encrypted) message to every peer in
the room: the output contains, per entry, one delivery per current
connection, each tagged with the receiving peer. -/
def sendEntriesToPeer (s : ServiceState) (peerId : String) : List (String × OutMsg) :=
  match mget s.connections peerId with
  | none => []
  | some conn =>
    if conn.state = ConnState.authenticated then
      match conn.publicKey with
      | none => []
      | some pk =>
        match mget s.trustedKeys pk with
        | none => []
        | some trustedInfo =>
          (s.entries.map (fun e =>
            s.connections.map (fun pc => (pc.1, OutMsg.entryFor trustedInfo.boxPublicKey e)))).flatten
    else []

/-- `broadcastEntry` (lines 487-498): for every authenticated connection
whose recorded key is still trusted, encrypt the new entry for that
connection's key and call `p2pActions.sendEntry(encrypted)`.  As in
`sendEntriesToPeer`, the targetless trystero send transmits each such
message to every peer in the room. -/
def broadcastEntry (s : ServiceState) (entry : DiaryEntry) : List (String × OutMsg) :=
  (s.connections.map (fun pc =>
    if pc.2.state = ConnState.authenticated then
      match pc.2.publicKey with
      | none => []
      | some pk =>
        match mget s.trustedKeys pk with
        | none => []
        | some trustedInfo =>
          s.connections.map (fun qc => (qc.1, OutMsg.entryFor trustedInfo.boxPublicKey entry))
    else [])).flatten

/-- `handleAuthResponse` (lines 260-308).  `verify` is the external
`nacl.sign.detached.verify` primitive over the base64 forms (challenge,
signature, public key).  Control flow follows the source exactly:
no connection or a non-`challenging` state returns unchanged; an invalid
signature returns unchanged (the state stays `challenging`, the challenge
is kept); a valid signature with an untrusted key moves the connection to
`untrusted`; otherwise the connection becomes `authenticated`, records the
key, name and permissions, and the current entries are sent to the peer. -/
def handleAuthResponse (verify : String → String → String → Bool) (s : ServiceState)
    (peerId signature publicKey : String) : ServiceState × List (String × OutMsg) :=
  match mget s.connections peerId with
  | none => (s, [])
  | some conn =>
    if conn.state = ConnState.challenging then
      if verify conn.challenge signature publicKey then
        match mget s.trustedKeys publicKey with
        | none =>
          ({ s with connections := mset s.connections peerId { conn with state := ConnState.untrusted } }, [])
        | some trustedInfo =>
          let conn' := { conn with
            state := ConnState.authenticated,
            publicKey := some publicKey,
            permissions := trustedInfo.permissions,
            name := some trustedInfo.name }
          let s' := { s with connections := mset s.connections peerId conn' }
          (s', sendEntriesToPeer s' peerId)
      else (s, [])
    else (s, [])

/-- The `/api/trusted` POST handler (lines 419-432): upsert the record under
the signing public key, defaulting the name to `"Unknown"` and the
permissions to `["read"]`. -/
def apiAddTrusted (s : ServiceState) (publicKey boxPublicKey : String)
    (name : Option String) (permissions : Option (List String)) (now : Nat) : ServiceState :=
  let record : TrustRecord :=
    { boxPublicKey := boxPublicKey, name := name.getD "Unknown",
      permissions := permissions.getD ["read"], trustedAt := now }
  { s with trustedKeys := mset s.trustedKeys publicKey record }

/-- The protocol events the service reacts to.  Environment-chosen values
(the fresh 32-byte challenge, clock readings, request bodies) are carried
by the event. -/
inductive Event where
  | peerJoin (peerId challenge : String) (now : Nat)
  | authResponse (peerId signature publicKey : String)
  | addEntry (content : String) (now : Nat)
  | addTrusted (publicKey boxPublicKey : String) (name : Option String)
      (permissions : Option (List String)) (now : Nat)
  | removeTrusted (publicKey : String)
  | peerLeave (peerId : String)
deriving Repr, DecidableEq

/-- One reaction of `trust-diary-service.js` to an event, returning the new
state and the messages sent, each tagged with its recipient:
`handlePeerJoin` (lines 238-253), `handleAuthResponse` (260-308), the
`/api/entries` POST handler (393-409) with its `broadcastEntry` call, the
`/api/trusted` POST and DELETE handlers (419-438), and the
`onPeerLeave` handler (207-210). -/
def step (verify : String → String → String → Bool) (s : ServiceState) :
    Event → ServiceState × List (String × OutMsg)
  | Event.peerJoin p ch now =>
    let conn : Conn :=
      { state := ConnState.challenging, challenge := ch, publicKey := none,
        permissions := [], name := none, joinedAt := now }
    let s' := { s with connections := mset s.connections p conn }
    (s', s'.connections.map (fun pc =>
      (pc.1, OutMsg.challengeMsg ch (getPublicKeyString s) (getBoxPublicKeyString s))))
  | Event.authResponse p sig pk => handleAuthResponse verify s p sig pk
  | Event.addEntry content now =>
    let entry : DiaryEntry :=
      { id := s.entries.length + 1, content := content, timestamp := now, author := "Admin" }
    let s' := { s with entries := s.entries ++ [entry] }
    (s', broadcastEntry s' entry)
  | Event.addTrusted pk bpk name perms now => (apiAddTrusted s pk bpk name perms now, [])
  | Event.removeTrusted pk => ({ s with trustedKeys := mdel s.trustedKeys pk }, [])
  | Event.peerLeave p => ({ s with connections := mdel s.connections p }, [])

/-- Every connection binding for peer `p` is in the `untrusted` state
(vacuously true when the peer has no binding, e.g. after disconnect). -/
def untrustedBindings (s : ServiceState) (p : String) : Prop :=
  ∀ c, (p, c) ∈ s.connections → c.state = ConnState.untrusted

/-- The event is not a (re-)join of peer `p`; a re-join would start a fresh
session with a fresh challenge. -/
def notJoinOf (p : String) : Event → Prop
  | Event.peerJoin q _ _ => q ≠ p
  | _ => True

/-- Every `entry` message among the deliveries `outs` is sealed for the box
key that the trust store of `s` binds to the recorded signing key of some
session other than `p`'s that is in the `authenticated` state — in
particular, none is encrypted for `p`'s (never-authenticated) session,
even though `p` receives a broadcast copy of each. -/
def entriesSealedForOthers (s : ServiceState) (p : String)
    (outs : List (String × OutMsg)) : Prop :=
  ∀ r bk e, (r, OutMsg.entryFor bk e) ∈ outs →
    ∃ q c pk tr, (q, c) ∈ s.connections ∧ c.state = ConnState.authenticated ∧
      c.publicKey = some pk ∧ mget s.trustedKeys pk = some tr ∧
      tr.boxPublicKey = bk ∧ q ≠ p

/-- Along the whole run of `evs` from `s`, peer `p`'s session stays
`untrusted` (never `authenticated`), and every `entry` message sent —
received by the whole room, `p` included — is sealed for the key of an
authenticated session other than `p`'s. -/
def inertFrom (verify : String → String → String → Bool) (p : String) :
    ServiceState → List Event → Prop
  | s, [] => untrustedBindings s p
  | s, e :: evs =>
    untrustedBindings s p ∧
      entriesSealedForOthers (step verify s e).1 p (step verify s e).2 ∧
      inertFrom verify p (step verify s e).1 evs

/-- A connection record of the Go service (`src/go-service/main.go` lines
64-72); `authenticated` mirrors the `Authenticated` flag that
`handleEntryRequest` and `sendEntriesToPeer` test. -/
structure GoConn where
  state : String
  publicKey : String
  name : String
  challenge : Option String
  authenticated : Bool
deriving Repr, DecidableEq

/-- A message the Go service writes to a peer's WebRTC data channel.  The
`entry` constructor is the JSON object built in `sendEntriesToPeer`
(lines 726-733) and `broadcastEntry` (lines 742-746):
`{"type":"entry","entry":<DiaryEntry>}` — the diary entry itself is the
payload; the message has no nonce and no ciphertext field. -/
inductive GoWireMsg where
  | challengeMsg (challenge servicePublicKey serviceBoxPublicKey : String)
  | entry (e : DiaryEntry)
deriving Repr, DecidableEq

/-- The Go service state (`TrustDiaryService`, lines 23-37) restricted to
the fields the entry-delivery path reads: the connection map, the entry
log, and the set of peer ids with an open data channel. -/
structure GoService where
  connections : List (String × GoConn)
  entries : List DiaryEntry
  dataChannels : List String
deriving Repr, DecidableEq

/-- `sendEntriesToPeer` of the Go service (lines 714-735): if the peer has a
data channel and an authenticated connection, write one `entry` message
per log entry, in log order, to that peer's channel. -/
def goSendEntriesToPeer (s : GoService) (peerId : String) : List GoWireMsg :=
  if s.dataChannels.contains peerId then
    match mget s.connections peerId with
    | none => []
    | some conn =>
      if conn.authenticated then s.entries.map GoWireMsg.entry else []
  else []

/-- `handleEntryRequest` of the Go service (lines 701-712): a `request`
message from a peer triggers `sendEntriesToPeer` when the connection is
authenticated. -/
def goHandleEntryRequest (s : GoService) (peerId : String) : List GoWireMsg :=
  match mget s.connections peerId with
  | none => []
  | some conn =>
    if conn.authenticated then goSendEntriesToPeer s peerId else []

/-- The diary-entry payload of a wire message, if it is an `entry` message. -/
def goEntryPayload : GoWireMsg → Option DiaryEntry
  | GoWireMsg.entry e => some e
  | _ => none

/-- The four base64-encoded key strings persisted in `identity.json` by both
services. -/
structure StoredIdentity where
  publicKey : String
  secretKey : String
  boxPublicKey : String
  boxSecretKey : String
deriving Repr, DecidableEq

/-- Result of loading the identity: either the persisted material was
loaded, or a fresh identity was generated and written over
`identity.json`. -/
inductive LoadResult where
  | loaded (stored : StoredIdentity)
  | generated (fresh : StoredIdentity)
deriving Repr, DecidableEq

/-- `loadIdentity` of the Node.js service (lines 78-116).  `file` is the
content of `identity.json` (`none` when missing or unreadable); `parse`
models `JSON.parse` plus base64 decoding of the four keys (`none` when it
throws).  The source wraps the read and parse in one `try` block whose
`catch` unconditionally generates a fresh identity and writes it to
`identity.json`, so a corrupt file takes the same path as a missing one. -/
def jsLoadIdentity (parse : String → Option StoredIdentity)
    (file : Option String) (fresh : StoredIdentity) : LoadResult :=
  match file with
  | some data =>
    match parse data with
    | some stored => LoadResult.loaded stored
    | none => LoadResult.generated fresh
  | none => LoadResult.generated fresh

/-- The in-memory Go `Identity` (raw key bytes after base64 decoding). -/
structure GoIdentity where
  publicKey : List Nat
  privateKey : List Nat
  boxPublicKey : List Nat
  boxPrivateKey : List Nat
deriving Repr, DecidableEq

/-- Result of the Go identity loader: the decoded persisted material, or a
freshly generated identity written over `identity.json`. -/
inductive GoLoadResult where
  | loaded (id : GoIdentity)
  | generated (fresh : GoIdentity)
deriving Repr, DecidableEq

/-- `loadOrGenerateIdentity` of the Go service (lines 135-207): when the
file reads successfully but `json.Unmarshal` fails, the function returns
the error `failed to parse identity` and never reaches the
generate-and-save branch; only a missing/unreadable file generates a
fresh identity.  When the JSON does parse, the four keys are decoded with
`pubKey, _ := base64.StdEncoding.DecodeString(...)` (lines 153-156): the
decode error is discarded and whatever bytes the decoder produced become
the identity, so corrupt-but-parseable material is accepted silently.
`decode` models `DecodeString`, returning the produced bytes and whether
decoding succeeded; the second component is never consulted, exactly as
in the source.  (`loadOrCreateIdentity` of
`src/go-nostr-service/main-encrypted.go` lines 111-168 has the same
shape: unmarshal error returned, decode errors discarded with `_`.) -/
def goLoadOrGenerateIdentity (parse : String → Option StoredIdentity)
    (decode : String → List Nat × Bool) (file : Option String) (fresh : GoIdentity) :
    Except String GoLoadResult :=
  match file with
  | some data =>
    match parse data with
    | some stored =>
      Except.ok (GoLoadResult.loaded
        { publicKey := (decode stored.publicKey).1,
          privateKey := (decode stored.secretKey).1,
          boxPublicKey := (decode stored.boxPublicKey).1,
          boxPrivateKey := (decode stored.boxSecretKey).1 })
    | none => Except.error "failed to parse identity"
  | none => Except.ok (GoLoadResult.generated fresh)

/-! Concrete sample data used to evaluate the model on closed inputs. -/

/-- The initial entry the service seeds its log with. -/
def sampleEntry1 : DiaryEntry :=
  { id := 1, content := "Trust Diary Service started", timestamp := 100, author := "Service" }

/-- A second, later entry. -/
def sampleEntry2 : DiaryEntry :=
  { id := 2, content := "second entry", timestamp := 200, author := "Admin" }

/-- A trust record for a reader key. -/
def sampleRecord : TrustRecord :=
  { boxPublicKey := "boxR", name := "Reader", permissions := ["read"], trustedAt := 50 }

/-- A connection freshly challenged by `handlePeerJoin`. -/
def sampleChallengingConn : Conn :=
  { state := ConnState.challenging, challenge := "chal", publicKey := none,
    permissions := [], name := none, joinedAt := 10 }

/-- A connection that already completed authentication. -/
def sampleAuthConn : Conn :=
  { state := ConnState.authenticated, challenge := "chal", publicKey := some "pkR",
    permissions := ["read"], name := some "Reader", joinedAt := 10 }

/-- A service state with one trusted key `pkR` and one challenged peer. -/
def sampleState : ServiceState :=
  { trustedKeys := [("pkR", sampleRecord)], entries := [sampleEntry1],
    connections := [("peerA", sampleChallengingConn)], roomSalt := "trust-diary-v1",
    identityPublicKey := [1, 2, 3], identityBoxPublicKey := [4, 5, 6] }

/-- Like `sampleState` but the peer is already authenticated. -/
def sampleStateAuth : ServiceState :=
  { sampleState with connections := [("peerA", sampleAuthConn)] }

/-- Like `sampleState` but with empty log, trust store and connection map
(same salt and identity). -/
def sampleStateBare : ServiceState :=
  { sampleState with trustedKeys := [], entries := [], connections := [] }

/-- A concrete signature oracle: exactly the signature string `"goodsig"`
verifies. -/
def sampleVerify : String → String → String → Bool :=
  fun _ sig _ => sig == "goodsig"

/-- A signature oracle that accepts everything. -/
def sampleVerifyTrue : String → String → String → Bool :=
  fun _ _ _ => true

/-- An authenticated Go-service connection. -/
def goSampleConn : GoConn :=
  { state := "authenticated", publicKey := "pkR", name := "Reader",
    challenge := some "chal", authenticated := true }

/-- A Go-service state with one authenticated peer holding a data channel
and two log entries. -/
def goSampleState : GoService :=
  { connections := [("peerA", goSampleConn)], entries := [sampleEntry1, sampleEntry2],
    dataChannels := ["peerA"] }

/-- A concrete freshly generated identity. -/
def sampleStored : StoredIdentity :=
  { publicKey := "spk", secretKey := "ssk", boxPublicKey := "sbpk", boxSecretKey := "sbsk" }

/-- A second challenged connection, for a room with two peers. -/
def sampleChallengingConnB : Conn :=
  { state := ConnState.challenging, challenge := "chal2", publicKey := none,
    permissions := [], name := none, joinedAt := 11 }

/-- A room with two challenged peers: `peerA` (whose key `pkR` is trusted)
and `peerB`. -/
def sampleStateTwo : ServiceState :=
  { sampleState with connections :=
      [("peerA", sampleChallengingConn), ("peerB", sampleChallengingConnB)] }

/-- A parse oracle for identity material that is valid JSON whose four key
fields are not valid base64. -/
def sampleBadParse : String → Option StoredIdentity :=
  fun _ => some { publicKey := "!bad!", secretKey := "!bad!",
                  boxPublicKey := "!bad!", boxSecretKey := "!bad!" }

/-- A decoder under which every input is invalid base64: it reports failure
and yields no bytes (Go's `DecodeString` returns a partial slice alongside
the error). -/
def sampleBadDecode : String → List Nat × Bool :=
  fun _ => ([], false)

/-- A concrete freshly generated Go identity. -/
def sampleFreshGo : GoIdentity :=
  { publicKey := [7], privateKey := [8], boxPublicKey := [9], boxPrivateKey := [10] }

/-! Helper lemmas about the JavaScript-`Map` model. -/

theorem mget_cons {α : Type} (kv : String × α) (rest : List (String × α)) (k : String) :
    mget (kv :: rest) k = if kv.1 == k then some kv.2 else mget rest k := by
  by_cases h : (kv.1 == k) = true
  · simp [mget, List.find?_cons_of_pos _ h, h]
  · simp [mget, List.find?_cons_of_neg _ h, h]

theorem mem_of_mget {α : Type} {m : List (String × α)} {k : String} {v : α}
    (h : mget m k = some v) : (k, v) ∈ m := by
  induction m with
  | nil => simp [mget] at h
  | cons kv rest ih =>
    rw [mget_cons] at h
    by_cases hk : (kv.1 == k) = true
    · rw [if_pos hk] at h
      obtain ⟨a, b⟩ := kv
      have ha : a = k := by simpa using hk
      have hb : b = v := by simpa using h
      subst ha; subst hb
      exact List.mem_cons_self _ _
    · rw [if_neg hk] at h
      exact List.mem_cons_of_mem _ (ih h)

theorem mhas_of_mem {α : Type} {m : List (String × α)} {k : String} {v : α}
    (h : (k, v) ∈ m) : mhas m k = true := by
  unfold mhas
  exact List.any_eq_true.mpr ⟨(k, v), h, by simp⟩

theorem mem_mset {α : Type} {m : List (String × α)} {k a : String} {v c : α}
    (h : (a, c) ∈ mset m k v) : (a, c) ∈ m ∨ (a = k ∧ c = v) := by
  unfold mset at h
  by_cases hh : mhas m k = true
  · rw [if_pos hh] at h
    obtain ⟨kv, hkv, heq⟩ := List.mem_map.mp h
    by_cases hk : kv.1 = k
    · rw [if_pos hk] at heq
      have : k = a ∧ v = c := by simpa using heq
      exact Or.inr ⟨this.1.symm, this.2.symm⟩
    · rw [if_neg hk] at heq
      exact Or.inl (heq ▸ hkv)
  · rw [if_neg hh] at h
    rcases List.mem_append.mp h with h1 | h2
    · exact Or.inl h1
    · have : a = k ∧ c = v := by simpa using h2
      exact Or.inr this

theorem mem_mset_self {α : Type} {m : List (String × α)} {k : String} {v c : α}
    (h : (k, c) ∈ mset m k v) : c = v := by
  unfold mset at h
  by_cases hh : mhas m k = true
  · rw [if_pos hh] at h
    obtain ⟨kv, hkv, heq⟩ := List.mem_map.mp h
    by_cases hk : kv.1 = k
    · rw [if_pos hk] at heq
      have : k = k ∧ v = c := by simpa using heq
      exact this.2.symm
    · rw [if_neg hk] at heq
      rw [heq] at hk
      exact absurd rfl hk
  · rw [if_neg hh] at h
    rcases List.mem_append.mp h with h1 | h2
    · exact absurd (mhas_of_mem h1) (by simpa using hh)
    · have : k = k ∧ c = v := by simpa using h2
      exact this.2

theorem mget_map_set {α : Type} {m : List (String × α)} {k : String} {v : α}
    (hh : mhas m k = true) :
    mget (m.map (fun kv => if kv.1 = k then (k, v) else kv)) k = some v := by
  induction m with
  | nil => simp [mhas] at hh
  | cons kv rest ih =>
    by_cases hk : kv.1 = k
    · rw [List.map_cons, if_pos hk, mget_cons]
      simp
    · have hb : (kv.1 == k) = false := by simp [hk]
      have hh' : mhas rest k = true := by
        unfold mhas at hh ⊢
        rw [List.any_cons, hb] at hh
        simpa using hh
      rw [List.map_cons, if_neg hk, mget_cons, hb]
      exact ih hh'

theorem mget_append_self {α : Type} {m : List (String × α)} {k : String} {v : α}
    (hh : mhas m k = false) : mget (m ++ [(k, v)]) k = some v := by
  induction m with
  | nil => rw [List.nil_append, mget_cons]; simp
  | cons kv rest ih =>
    have hb : (kv.1 == k) = false := by
      unfold mhas at hh
      rw [List.any_cons] at hh
      exact (Bool.or_eq_false_iff.mp hh).1
    have hh' : mhas rest k = false := by
      unfold mhas at hh ⊢
      rw [List.any_cons] at hh
      exact (Bool.or_eq_false_iff.mp hh).2
    rw [List.cons_append, mget_cons, hb]
    exact ih hh'

theorem mget_mset_self {α : Type} (m : List (String × α)) (k : String) (v : α) :
    mget (mset m k v) k = some v := by
  unfold mset
  by_cases hh : mhas m k = true
  · rw [if_pos hh]; exact mget_map_set hh
  · rw [if_neg hh]; exact mget_append_self (by simpa using hh)

theorem length_mset_of_mhas {α : Type} {m : List (String × α)} {k : String} (v : α)
    (hh : mhas m k = true) : (mset m k v).length = m.length := by
  simp [mset, hh]

theorem mhas_map_set {α : Type} (m : List (String × α)) (k : String) (v : α) :
    mhas (m.map (fun kv => if kv.1 = k then (k, v) else kv)) k = mhas m k := by
  induction m with
  | nil => rfl
  | cons kv rest ih =>
    unfold mhas at ih ⊢
    by_cases hk : kv.1 = k
    · rw [List.map_cons, if_pos hk, List.any_cons, List.any_cons]
      simp [hk]
    · rw [List.map_cons, if_neg hk, List.any_cons, List.any_cons, ih]

theorem map_set_idem {α : Type} (m : List (String × α)) (k : String) (v : α) :
    (m.map (fun kv => if kv.1 = k then (k, v) else kv)).map
      (fun kv => if kv.1 = k then (k, v) else kv) =
    m.map (fun kv => if kv.1 = k then (k, v) else kv) := by
  induction m with
  | nil => rfl
  | cons kv rest ih =>
    by_cases hk : kv.1 = k <;> simp [hk, ih]

theorem map_set_of_not_mhas {α : Type} {m : List (String × α)} {k : String} (v : α)
    (hh : mhas m k = false) : m.map (fun kv => if kv.1 = k then (k, v) else kv) = m := by
  induction m with
  | nil => rfl
  | cons kv rest ih =>
    have hb : (kv.1 == k) = false := by
      unfold mhas at hh
      rw [List.any_cons] at hh
      exact (Bool.or_eq_false_iff.mp hh).1
    have hh' : mhas rest k = false := by
      unfold mhas at hh ⊢
      rw [List.any_cons] at hh
      exact (Bool.or_eq_false_iff.mp hh).2
    have hk : ¬ kv.1 = k := by simpa using hb
    rw [List.map_cons, if_neg hk, ih hh']

theorem mset_idem {α : Type} (m : List (String × α)) (k : String) (v : α) :
    mset (mset m k v) k v = mset m k v := by
  by_cases hh : mhas m k = true
  · unfold mset
    rw [if_pos hh, if_pos (by rw [mhas_map_set]; exact hh)]
    exact map_set_idem m k v
  · have hh' : mhas m k = false := by simpa using hh
    unfold mset
    rw [if_neg hh]
    have h2 : mhas (m ++ [(k, v)]) k = true := by
      unfold mhas
      rw [List.any_append]
      simp
    rw [if_pos h2, List.map_append, map_set_of_not_mhas v hh']
    simp

theorem filterMap_goEntryPayload (l : List DiaryEntry) :
    (l.map GoWireMsg.entry).filterMap goEntryPayload = l := by
  induction l with
  | nil => rfl
  | cons e rest ih => simp [goEntryPayload, ih]

/-! Helper lemmas about the session state machine. -/

theorem mem_sendEntriesToPeer {s : ServiceState} {p : String} {x : String × OutMsg}
    (h : x ∈ sendEntriesToPeer s p) :
    ∃ conn pk tr e, mget s.connections p = some conn ∧
      conn.state = ConnState.authenticated ∧ conn.publicKey = some pk ∧
      mget s.trustedKeys pk = some tr ∧ e ∈ s.entries ∧
      x.2 = OutMsg.entryFor tr.boxPublicKey e := by
  unfold sendEntriesToPeer at h
  cases hm : mget s.connections p with
  | none => simp only [hm] at h; simp at h
  | some conn =>
    simp only [hm] at h
    by_cases hst : conn.state = ConnState.authenticated
    · simp only [if_pos hst] at h
      cases hpk : conn.publicKey with
      | none => simp only [hpk] at h; simp at h
      | some pk =>
        simp only [hpk] at h
        cases ht : mget s.trustedKeys pk with
        | none => simp only [ht] at h; simp at h
        | some tr =>
          simp only [ht] at h
          obtain ⟨l, hl, hx⟩ := List.mem_flatten.mp h
          obtain ⟨e, he, hle⟩ := List.mem_map.mp hl
          rw [← hle] at hx
          obtain ⟨pc, _, hpe⟩ := List.mem_map.mp hx
          exact ⟨conn, pk, tr, e, rfl, hst, hpk, ht, he, by rw [← hpe]⟩
    · simp only [if_neg hst] at h
      simp at h

theorem mem_broadcastEntry {s : ServiceState} {entry : DiaryEntry} {x : String × OutMsg}
    (h : x ∈ broadcastEntry s entry) :
    ∃ q c pk tr, (q, c) ∈ s.connections ∧ c.state = ConnState.authenticated ∧
      c.publicKey = some pk ∧ mget s.trustedKeys pk = some tr ∧
      x.2 = OutMsg.entryFor tr.boxPublicKey entry := by
  unfold broadcastEntry at h
  obtain ⟨l, hl, hx⟩ := List.mem_flatten.mp h
  obtain ⟨pc, hpc, hpl⟩ := List.mem_map.mp hl
  rw [← hpl] at hx
  obtain ⟨q, c⟩ := pc
  by_cases hst : c.state = ConnState.authenticated
  · simp only [if_pos hst] at hx
    cases hpk : c.publicKey with
    | none => simp only [hpk] at hx; simp at hx
    | some pk =>
      simp only [hpk] at hx
      cases ht : mget s.trustedKeys pk with
      | none => simp only [ht] at hx; simp at hx
      | some tr =>
        simp only [ht] at hx
        obtain ⟨qc, _, hqe⟩ := List.mem_map.mp hx
        exact ⟨q, c, pk, tr, hpc, hst, hpk, ht, by rw [← hqe]⟩
  · simp only [if_neg hst] at hx
    simp at hx

theorem handleAuthResponse_noop {verify : String → String → String → Bool}
    {s : ServiceState} {p sig pk : String} {conn : Conn}
    (hc : mget s.connections p = some conn) (hst : conn.state ≠ ConnState.challenging) :
    handleAuthResponse verify s p sig pk = (s, []) := by
  unfold handleAuthResponse
  simp only [hc, if_neg hst]

theorem handleAuthResponse_no_conn {verify : String → String → String → Bool}
    {s : ServiceState} {p sig pk : String}
    (hc : mget s.connections p = none) :
    handleAuthResponse verify s p sig pk = (s, []) := by
  unfold handleAuthResponse
  simp only [hc]

theorem handleAuthResponse_invalid {verify : String → String → String → Bool}
    {s : ServiceState} {p sig pk : String} {conn : Conn}
    (hc : mget s.connections p = some conn) (hst : conn.state = ConnState.challenging)
    (hv : verify conn.challenge sig pk = false) :
    handleAuthResponse verify s p sig pk = (s, []) := by
  unfold handleAuthResponse
  simp only [hc, if_pos hst, hv, Bool.false_eq_true, if_false]

theorem handleAuthResponse_untrusted {verify : String → String → String → Bool}
    {s : ServiceState} {p sig pk : String} {conn : Conn}
    (hc : mget s.connections p = some conn) (hst : conn.state = ConnState.challenging)
    (hv : verify conn.challenge sig pk = true) (ht : mget s.trustedKeys pk = none) :
    handleAuthResponse verify s p sig pk =
      ({ s with connections := mset s.connections p { conn with state := ConnState.untrusted } },
       ([] : List (String × OutMsg))) := by
  unfold handleAuthResponse
  simp only [hc, if_pos hst, hv, if_true, ht]

theorem handleAuthResponse_success {verify : String → String → String → Bool}
    {s : ServiceState} {p sig pk : String} {conn : Conn} {tr : TrustRecord}
    (hc : mget s.connections p = some conn) (hst : conn.state = ConnState.challenging)
    (hv : verify conn.challenge sig pk = true) (ht : mget s.trustedKeys pk = some tr) :
    handleAuthResponse verify s p sig pk =
      ({ s with
          connections := mset s.connections p
            { conn with state := ConnState.authenticated, publicKey := some pk,
                        permissions := tr.permissions, name := some tr.name } },
       sendEntriesToPeer
        { s with
          connections := mset s.connections p
            { conn with state := ConnState.authenticated, publicKey := some pk,
                        permissions := tr.permissions, name := some tr.name } } p) := by
  unfold handleAuthResponse
  simp only [hc, if_pos hst, hv, if_true, ht]

theorem handleAuthResponse_entries (verify : String → String → String → Bool)
    (s : ServiceState) (p sig pk : String) :
    (handleAuthResponse verify s p sig pk).1.entries = s.entries := by
  cases hm : mget s.connections p with
  | none => rw [handleAuthResponse_no_conn hm]
  | some conn =>
    by_cases hst : conn.state = ConnState.challenging
    · cases hv : verify conn.challenge sig pk with
      | false => rw [handleAuthResponse_invalid hm hst hv]
      | true =>
        cases ht : mget s.trustedKeys pk with
        | none => rw [handleAuthResponse_untrusted hm hst hv ht]
        | some tr => rw [handleAuthResponse_success hm hst hv ht]
    · rw [handleAuthResponse_noop hm hst]

theorem step_preserves_untrusted (verify : String → String → String → Bool)
    (s : ServiceState) (p : String) (e : Event)
    (hU : untrustedBindings s p) (hJ : notJoinOf p e) :
    untrustedBindings (step verify s e).1 p ∧
      entriesSealedForOthers (step verify s e).1 p (step verify s e).2 := by
  cases e with
  | peerJoin q ch now =>
    constructor
    · intro c hc
      rcases mem_mset hc with h1 | h2
      · exact hU c h1
      · exact absurd h2.1.symm hJ
    · intro r bk e hmem
      simp only [step] at hmem
      obtain ⟨pc, _, hpe⟩ := List.mem_map.mp hmem
      simp at hpe
  | authResponse q sig pk =>
    show untrustedBindings (handleAuthResponse verify s q sig pk).1 p ∧
         entriesSealedForOthers (handleAuthResponse verify s q sig pk).1 p
           (handleAuthResponse verify s q sig pk).2
    cases hm : mget s.connections q with
    | none =>
      rw [handleAuthResponse_no_conn hm]
      exact ⟨hU, fun r bk e h => by simp at h⟩
    | some conn =>
      by_cases hst : conn.state = ConnState.challenging
      · cases hv : verify conn.challenge sig pk with
        | true =>
          cases ht : mget s.trustedKeys pk with
          | none =>
            rw [handleAuthResponse_untrusted hm hst hv ht]
            constructor
            · intro c hc
              rcases mem_mset hc with h1 | h2
              · exact hU c h1
              · rw [h2.2]
            · intro r bk e h
              simp at h
          | some tr =>
            have hqp : q ≠ p := by
              intro hq
              have := hU conn (hq ▸ mem_of_mget hm)
              rw [hst] at this
              exact ConnState.noConfusion this
            rw [handleAuthResponse_success hm hst hv ht]
            constructor
            · intro c hc
              rcases mem_mset hc with h1 | h2
              · exact hU c h1
              · exact absurd h2.1.symm hqp
            · intro r bk e hmem
              obtain ⟨conn2, pk2, tr2, e2, hmg, hstA, hpk2, htr2, _, hx⟩ :=
                mem_sendEntriesToPeer hmem
              have hbk : tr2.boxPublicKey = bk ∧ e2 = e := by
                have hinj : OutMsg.entryFor bk e = OutMsg.entryFor tr2.boxPublicKey e2 := hx
                injection hinj with h1 h2
                exact ⟨h1.symm, h2.symm⟩
              exact ⟨q, conn2, pk2, tr2, mem_of_mget hmg, hstA, hpk2, htr2, hbk.1, hqp⟩
        | false =>
          rw [handleAuthResponse_invalid hm hst hv]
          exact ⟨hU, fun r bk e h => by simp at h⟩
      · rw [handleAuthResponse_noop hm hst]
        exact ⟨hU, fun r bk e h => by simp at h⟩
  | addEntry content now =>
    constructor
    · intro c hc
      exact hU c hc
    · intro r bk e hmem
      obtain ⟨q, c, pk, tr, hqc, hauth, hpk, htr, hmsg⟩ := mem_broadcastEntry hmem
      have hbk : tr.boxPublicKey = bk := by
        have hinj : OutMsg.entryFor bk e =
            OutMsg.entryFor tr.boxPublicKey
              { id := s.entries.length + 1, content := content, timestamp := now,
                author := "Admin" } := hmsg
        injection hinj with h1 _
        exact h1.symm
      have hqp : q ≠ p := by
        intro hq
        rw [hq] at hqc
        have := hU c hqc
        rw [this] at hauth
        exact ConnState.noConfusion hauth
      exact ⟨q, c, pk, tr, hqc, hauth, hpk, htr, hbk, hqp⟩
  | addTrusted pk bpk name perms now =>
    exact ⟨fun c hc => hU c hc, fun r bk e h => by simp [step] at h⟩
  | removeTrusted pk =>
    exact ⟨fun c hc => hU c hc, fun r bk e h => by simp [step] at h⟩
  | peerLeave q =>
    constructor
    · intro c hc
      exact hU c (List.mem_of_mem_filter hc)
    · intro r bk e h
      simp [step] at h

theorem inert_of_untrusted (verify : String → String → String → Bool) (p : String) :
    ∀ (evs : List Event) (s : ServiceState), untrustedBindings s p →
      (∀ e ∈ evs, notJoinOf p e) → inertFrom verify p s evs := by
  intro evs
  induction evs with
  | nil => intro s hU _; exact hU
  | cons e rest ih =>
    intro s hU hJ
    obtain ⟨h1, h2⟩ := step_preserves_untrusted verify s p e hU (hJ e (List.mem_cons_self _ _))
    exact ⟨hU, h2, ih _ h1 (fun e' he' => hJ e' (List.mem_cons_of_mem _ he'))⟩

/-! Claim theorems. -/

/-- Claim C1 counterexample: in the code, a response with an invalid
signature while the session is `challenging` leaves the session in
`challenging` with the challenge retained (there is no `Rejected` state
and nothing is discarded), and a second response with a valid signature
over the very same challenge then transitions the session to
`Authenticated` — so the challenge is not single-use and the claimed
`Rejected` transition does not happen. -/
theorem invalid_response_retains_challenge_cex :
    step sampleVerify sampleState (Event.authResponse "peerA" "badsig" "pkR") =
      (sampleState, [])
    ∧ (mget (step sampleVerify sampleState (Event.authResponse "peerA" "goodsig" "pkR")).1.connections
        "peerA").map Conn.state = some ConnState.authenticated := by
  exact ⟨rfl, rfl⟩

/-- Claim C1 (amended): when the authenticating side receives a response
with an invalid signature while a session is in the `challenging` state,
the whole service state is left unchanged and no message is sent: the
session does not transition (no `Rejected` state exists in the code) and
the outstanding challenge is retained rather than discarded, so a later
response with a valid signature over the same challenge can still
transition the session (see the counterexample). -/
theorem invalid_signature_leaves_state_unchanged
    (verify : String → String → String → Bool) (s : ServiceState) (p sig pk : String)
    (conn : Conn) (hc : mget s.connections p = some conn)
    (hst : conn.state = ConnState.challenging)
    (hv : verify conn.challenge sig pk = false) :
    step verify s (Event.authResponse p sig pk) = (s, []) :=
  handleAuthResponse_invalid hc hst hv

/-- Witness for the amended claim C1 at concrete inputs. -/
theorem invalid_signature_leaves_state_unchanged_wit :
    mget sampleState.connections "peerA" = some sampleChallengingConn
    ∧ sampleChallengingConn.state = ConnState.challenging
    ∧ sampleVerify sampleChallengingConn.challenge "badsig" "pkR" = false
    ∧ step sampleVerify sampleState (Event.authResponse "peerA" "badsig" "pkR") =
        (sampleState, []) :=
  ⟨rfl, rfl, rfl,
   invalid_signature_leaves_state_unchanged sampleVerify sampleState "peerA" "badsig" "pkR"
     sampleChallengingConn rfl rfl rfl⟩

/-- Claim C9: on any authentication failure — a response whose signature
does not verify, or a verified key that is not in the trust store — the
service sends no message of any kind (to the peer or anyone else). -/
theorem auth_failure_sends_no_message
    (verify : String → String → String → Bool) (s : ServiceState) (p sig pk : String)
    (conn : Conn) (hc : mget s.connections p = some conn)
    (hst : conn.state = ConnState.challenging)
    (hfail : verify conn.challenge sig pk = false ∨ mget s.trustedKeys pk = none) :
    (handleAuthResponse verify s p sig pk).2 = [] := by
  rcases hfail with hv | ht
  · rw [handleAuthResponse_invalid hc hst hv]
  · cases hv : verify conn.challenge sig pk with
    | false => rw [handleAuthResponse_invalid hc hst hv]
    | true => rw [handleAuthResponse_untrusted hc hst hv ht]

/-- Witness for claim C9 at concrete inputs (invalid-signature case). -/
theorem auth_failure_sends_no_message_wit :
    mget sampleState.connections "peerA" = some sampleChallengingConn
    ∧ sampleChallengingConn.state = ConnState.challenging
    ∧ sampleVerify sampleChallengingConn.challenge "badsig" "pkR" = false
    ∧ (handleAuthResponse sampleVerify sampleState "peerA" "badsig" "pkR").2 = [] :=
  ⟨rfl, rfl, rfl,
   auth_failure_sends_no_message sampleVerify sampleState "peerA" "badsig" "pkR"
     sampleChallengingConn rfl rfl (Or.inl rfl)⟩

/-- Claim C10: a `response` message for a connection whose state is not
`challenging` (e.g. already `authenticated` or `untrusted`) leaves the
whole service state unchanged — in particular the connection's state,
recorded public key, name and permissions — and sends nothing. -/
theorem non_challenging_response_is_noop
    (verify : String → String → String → Bool) (s : ServiceState) (p sig pk : String)
    (conn : Conn) (hc : mget s.connections p = some conn)
    (hst : conn.state ≠ ConnState.challenging) :
    handleAuthResponse verify s p sig pk = (s, []) :=
  handleAuthResponse_noop hc hst

/-- Witness for claim C10 at concrete inputs (already-authenticated
connection). -/
theorem non_challenging_response_is_noop_wit :
    mget sampleStateAuth.connections "peerA" = some sampleAuthConn
    ∧ sampleAuthConn.state ≠ ConnState.challenging
    ∧ handleAuthResponse sampleVerify sampleStateAuth "peerA" "goodsig" "pkR" =
        (sampleStateAuth, []) :=
  ⟨rfl, by decide,
   non_challenging_response_is_noop sampleVerify sampleStateAuth "peerA" "goodsig" "pkR"
     sampleAuthConn rfl (by decide)⟩

/-- Claim C2 counterexample: the claim's "never receives any entry message"
is false for the JS service.  `peerB` responds with a valid signature
(`sampleVerify` accepts `"goodsig"`) over its challenge under the key
`pkX`, which is absent from the trust store, and is marked `untrusted`
with nothing sent; when `peerA` then authenticates, the initial entry
dump is emitted with targetless trystero sends, which every peer in the
room receives — so `peerB` is delivered the `entry` wire message (sealed
for `peerA`'s key `"boxR"`, which `peerB` cannot decrypt). -/
theorem untrusted_peer_receives_wire_entry_cex :
    (mget (step sampleVerify sampleStateTwo
        (Event.authResponse "peerB" "goodsig" "pkX")).1.connections "peerB").map Conn.state =
      some ConnState.untrusted
    ∧ (step sampleVerify sampleStateTwo (Event.authResponse "peerB" "goodsig" "pkX")).2 = []
    ∧ ("peerB", OutMsg.entryFor "boxR" sampleEntry1) ∈
        (step sampleVerify
          (step sampleVerify sampleStateTwo (Event.authResponse "peerB" "goodsig" "pkX")).1
          (Event.authResponse "peerA" "goodsig" "pkR")).2 := by
  refine ⟨rfl, rfl, ?_⟩
  decide

/-- Claim C2 (amended): in the JS service, a peer whose challenge response
carries a valid signature but whose claimed signing public key is absent
from the trust store is moved to `untrusted` with nothing sent in reply,
and over any subsequent events that do not restart its session with a new
join the session never transitions to `Authenticated`; the peer does
receive the room-wide broadcast copies of `entry` messages (see the
counterexample), but every entry message sent during such a run is
encrypted for the bound encryption key of an authenticated session other
than this peer's — never for the untrusted peer's session. -/
theorem untrusted_session_never_authenticated_entries_sealed_for_others
    (verify : String → String → String → Bool) (s : ServiceState) (p sig pk : String)
    (conn : Conn) (evs : List Event)
    (hc : mget s.connections p = some conn)
    (hst : conn.state = ConnState.challenging)
    (hv : verify conn.challenge sig pk = true)
    (ht : mget s.trustedKeys pk = none)
    (hevs : ∀ e ∈ evs, notJoinOf p e) :
    (step verify s (Event.authResponse p sig pk)).2 = []
    ∧ inertFrom verify p (step verify s (Event.authResponse p sig pk)).1 evs := by
  have hstep : step verify s (Event.authResponse p sig pk) =
      ({ s with connections := mset s.connections p { conn with state := ConnState.untrusted } },
       ([] : List (String × OutMsg))) :=
    handleAuthResponse_untrusted hc hst hv ht
  rw [hstep]
  refine ⟨rfl, inert_of_untrusted verify p evs _ ?_ hevs⟩
  intro c hcm
  rw [mem_mset_self hcm]

/-- Witness for the amended claim C2 at concrete inputs: key `pkX` is not
trusted; the subsequent trace appends an entry (triggering a room-wide
broadcast) and replays the response. -/
theorem untrusted_session_never_authenticated_wit :
    mget sampleState.connections "peerA" = some sampleChallengingConn
    ∧ sampleChallengingConn.state = ConnState.challenging
    ∧ sampleVerifyTrue sampleChallengingConn.challenge "anysig" "pkX" = true
    ∧ mget sampleState.trustedKeys "pkX" = none
    ∧ ((step sampleVerifyTrue sampleState (Event.authResponse "peerA" "anysig" "pkX")).2 = []
       ∧ inertFrom sampleVerifyTrue "peerA"
          (step sampleVerifyTrue sampleState (Event.authResponse "peerA" "anysig" "pkX")).1
          [Event.addEntry "new entry" 300, Event.authResponse "peerA" "anysig" "pkX"]) :=
  ⟨rfl, rfl, rfl, rfl,
   untrusted_session_never_authenticated_entries_sealed_for_others sampleVerifyTrue sampleState
     "peerA" "anysig" "pkX" sampleChallengingConn
     [Event.addEntry "new entry" 300, Event.authResponse "peerA" "anysig" "pkX"]
     rfl rfl rfl rfl
     (by
       intro e he
       rcases List.mem_cons.mp he with h1 | h2
       · rw [h1]; trivial
       · rcases List.mem_cons.mp h2 with h3 | h4
         · rw [h3]; trivial
         · simp at h4)⟩

/-- Claim C5: the room identifier is a pure function of the salt and the
service signing public key alone — two states agreeing on those two
values yield the identical identifier whatever their other fields — and
it equals the spec's formula: a hash of the salt concatenated with the
(base64 of the) signing public key, truncated to a fixed 20-character
length.  The function is total, so it never fails on well-formed input. -/
theorem roomId_deterministic_pure
    (hash : List Nat → List Nat) (s1 s2 : ServiceState)
    (hsalt : s1.roomSalt = s2.roomSalt)
    (hpk : s1.identityPublicKey = s2.identityPublicKey) :
    generateRoomId hash s1 = generateRoomId hash s2
    ∧ generateRoomId hash s1 = roomIdSpec hash s1.roomSalt s1.identityPublicKey := by
  constructor
  · unfold generateRoomId getPublicKeyString
    rw [hsalt, hpk]
  · rfl

/-- Witness for claim C5: two states with the same salt and signing key but
different logs, trust stores and connections produce the same room id. -/
theorem roomId_deterministic_pure_wit :
    sampleState.roomSalt = sampleStateBare.roomSalt
    ∧ sampleState.identityPublicKey = sampleStateBare.identityPublicKey
    ∧ (generateRoomId List.reverse sampleState = generateRoomId List.reverse sampleStateBare
       ∧ generateRoomId List.reverse sampleState =
           roomIdSpec List.reverse sampleState.roomSalt sampleState.identityPublicKey) :=
  ⟨rfl, rfl, roomId_deterministic_pure List.reverse sampleState sampleStateBare rfl rfl⟩

/-- Claim C6: a `request` from an authenticated peer (with an open data
channel) makes the Go service send every entry currently in the log to
that peer, as one wire message per entry in exactly the log's order —
the log is kept in creation order, since every append goes to its end
(claim C7) — so the payload sequence of the peer's channel equals the
log itself. -/
theorem request_sends_all_entries_in_order
    (s : GoService) (p : String) (conn : GoConn)
    (hc : mget s.connections p = some conn) (ha : conn.authenticated = true)
    (hdc : s.dataChannels.contains p = true) :
    goHandleEntryRequest s p = s.entries.map GoWireMsg.entry
    ∧ (goHandleEntryRequest s p).filterMap goEntryPayload = s.entries := by
  have h1 : goHandleEntryRequest s p = s.entries.map GoWireMsg.entry := by
    unfold goHandleEntryRequest goSendEntriesToPeer
    rw [hc]
    simp only [if_pos ha, if_pos hdc]
  refine ⟨h1, ?_⟩
  rw [h1]
  exact filterMap_goEntryPayload s.entries

/-- Witness for claim C6 at concrete inputs: a two-entry log is delivered
whole and in order. -/
theorem request_sends_all_entries_in_order_wit :
    mget goSampleState.connections "peerA" = some goSampleConn
    ∧ goSampleConn.authenticated = true
    ∧ goSampleState.dataChannels.contains "peerA" = true
    ∧ (goHandleEntryRequest goSampleState "peerA" =
        goSampleState.entries.map GoWireMsg.entry
       ∧ (goHandleEntryRequest goSampleState "peerA").filterMap goEntryPayload =
           goSampleState.entries) :=
  ⟨rfl, rfl, rfl,
   request_sends_all_entries_in_order goSampleState "peerA" goSampleConn rfl rfl rfl⟩

/-- Claim C3 (evaluation at the failing input): the Go service answers an
authenticated peer's entry request with wire messages that carry each
`DiaryEntry` as-is — `{"type":"entry","entry":<entry>}` — with no nonce
and no ciphertext (the `GoWireMsg.entry` constructor has no such fields),
contradicting the claim that every entry payload is individually
encrypted with a fresh random nonce of at least 24 bytes transmitted
alongside.  (The Node.js service does satisfy the claim: `encryptForPeer`
seals each entry with `nacl.box` under a fresh 24-byte nonce.) -/
theorem go_entry_messages_are_plaintext :
    goHandleEntryRequest goSampleState "peerA" =
      [GoWireMsg.entry sampleEntry1, GoWireMsg.entry sampleEntry2] := by
  rfl

/-- Claim C4 counterexample: no implementation fails with a storage error
on corrupt persisted identity material.  The Node.js `loadIdentity` on an
existing but unparseable `identity.json` silently generates a fresh
identity and writes it over the existing material; the Go
`loadOrGenerateIdentity` on an existing file that parses as JSON but
whose key fields are not valid base64 discards the decode failures and
silently accepts the garbage identity (here: empty key bytes) as `ok` —
no error and no regeneration — even though the decoder reported failure
(third conjunct). -/
theorem corrupt_identity_not_storage_error_cex :
    jsLoadIdentity (fun _ => none) (some "corrupt identity file") sampleStored =
      LoadResult.generated sampleStored
    ∧ goLoadOrGenerateIdentity sampleBadParse sampleBadDecode
        (some "json with unreadable keys") sampleFreshGo =
      Except.ok (GoLoadResult.loaded
        { publicKey := [], privateKey := [], boxPublicKey := [], boxPrivateKey := [] })
    ∧ (sampleBadDecode "!bad!").2 = false := by
  exact ⟨rfl, rfl, rfl⟩

/-- Claim C4 (amended): no implementation satisfies the claim in full.  The
Node.js service silently generates a fresh identity and overwrites the
persisted material on any load failure, including an existing but corrupt
`identity.json` (counterexample, first conjunct).  The Go loaders fail
with an error — and never regenerate — exactly when the file exists and
is not parseable JSON (first conjunct here); when it parses, the base64
decode errors of the four key fields are discarded, so corrupt or
partially written material that is still JSON-parseable is silently
accepted as an identity made of whatever bytes the decoder produced,
regardless of whether decoding succeeded (second conjunct: the result
never consults the decoder's success flag). -/
theorem go_identity_load_behavior
    (parse : String → Option StoredIdentity) (decode : String → List Nat × Bool)
    (data : String) (fresh : GoIdentity) :
    (parse data = none →
      goLoadOrGenerateIdentity parse decode (some data) fresh =
        Except.error "failed to parse identity")
    ∧ (∀ stored, parse data = some stored →
        goLoadOrGenerateIdentity parse decode (some data) fresh =
          Except.ok (GoLoadResult.loaded
            { publicKey := (decode stored.publicKey).1,
              privateKey := (decode stored.secretKey).1,
              boxPublicKey := (decode stored.boxPublicKey).1,
              boxPrivateKey := (decode stored.boxSecretKey).1 })) := by
  constructor
  · intro h
    unfold goLoadOrGenerateIdentity
    simp only [h]
  · intro stored h
    unfold goLoadOrGenerateIdentity
    simp only [h]

/-- Witness for the amended claim C4 at concrete inputs: an unparseable
file errors without regeneration; a parseable file with invalid base64
keys is accepted as a garbage identity. -/
theorem go_identity_load_behavior_wit :
    goLoadOrGenerateIdentity (fun _ => none) sampleBadDecode (some "corrupt identity file")
        sampleFreshGo = Except.error "failed to parse identity"
    ∧ goLoadOrGenerateIdentity sampleBadParse sampleBadDecode
        (some "json with unreadable keys") sampleFreshGo =
      Except.ok (GoLoadResult.loaded
        { publicKey := [], privateKey := [], boxPublicKey := [], boxPrivateKey := [] }) :=
  ⟨(go_identity_load_behavior (fun _ => none) sampleBadDecode "corrupt identity file"
      sampleFreshGo).1 rfl,
   (go_identity_load_behavior sampleBadParse sampleBadDecode "json with unreadable keys"
      sampleFreshGo).2
     { publicKey := "!bad!", secretKey := "!bad!", boxPublicKey := "!bad!",
       boxSecretKey := "!bad!" } rfl⟩

/-- Claim C7: appending a diary entry assigns it the id
`entries.length + 1`, which is strictly greater than every id already in
the log (given the invariant that ids never exceed the log length, itself
preserved by the append), stamps it with the creation timestamp, and
appends it after all previously stored entries, which are unchanged; and
no protocol event ever deletes or edits an existing entry — every step's
log extends the old log. -/
theorem append_assigns_greater_id_and_log_is_append_only
    (verify : String → String → String → Bool) (s : ServiceState)
    (content : String) (now : Nat)
    (hIds : ∀ e ∈ s.entries, e.id ≤ s.entries.length) :
    (step verify s (Event.addEntry content now)).1.entries =
      s.entries ++
        [{ id := s.entries.length + 1, content := content, timestamp := now, author := "Admin" }]
    ∧ (∀ e ∈ s.entries, e.id < s.entries.length + 1)
    ∧ (∀ e ∈ (step verify s (Event.addEntry content now)).1.entries,
        e.id ≤ (step verify s (Event.addEntry content now)).1.entries.length)
    ∧ (∀ ev : Event, ∃ t, (step verify s ev).1.entries = s.entries ++ t) := by
  refine ⟨rfl, ?_, ?_, ?_⟩
  · intro e he
    exact Nat.lt_succ_of_le (hIds e he)
  · intro e he
    have hlen : (step verify s (Event.addEntry content now)).1.entries.length =
        s.entries.length + 1 := by
      show (s.entries ++ [_]).length = s.entries.length + 1
      simp
    rw [hlen]
    rcases List.mem_append.mp he with h1 | h2
    · exact Nat.le_succ_of_le (hIds e h1)
    · have : e = { id := s.entries.length + 1, content := content,
                   timestamp := now, author := "Admin" } := by simpa using h2
      rw [this]
  · intro ev
    cases ev with
    | peerJoin q ch n => exact ⟨[], by simp [step]⟩
    | authResponse q sig pk =>
      exact ⟨[], by rw [show (step verify s (Event.authResponse q sig pk)).1.entries = s.entries
        from handleAuthResponse_entries verify s q sig pk]; simp⟩
    | addEntry c n =>
      exact ⟨[{ id := s.entries.length + 1, content := c, timestamp := n, author := "Admin" }], rfl⟩
    | addTrusted pk bpk nm perms n => exact ⟨[], by simp [step, apiAddTrusted]⟩
    | removeTrusted pk => exact ⟨[], by simp [step]⟩
    | peerLeave q => exact ⟨[], by simp [step]⟩

/-- Witness for claim C7 at concrete inputs. -/
theorem append_assigns_greater_id_wit :
    (∀ e ∈ sampleState.entries, e.id ≤ sampleState.entries.length)
    ∧ ((step sampleVerify sampleState (Event.addEntry "hello" 300)).1.entries =
        sampleState.entries ++
          [{ id := sampleState.entries.length + 1, content := "hello",
             timestamp := 300, author := "Admin" }]
       ∧ (∀ e ∈ sampleState.entries, e.id < sampleState.entries.length + 1)
       ∧ (∀ e ∈ (step sampleVerify sampleState (Event.addEntry "hello" 300)).1.entries,
           e.id ≤ (step sampleVerify sampleState (Event.addEntry "hello" 300)).1.entries.length)
       ∧ (∀ ev : Event, ∃ t,
           (step sampleVerify sampleState ev).1.entries = sampleState.entries ++ t)) :=
  ⟨by decide,
   append_assigns_greater_id_and_log_is_append_only sampleVerify sampleState "hello" 300
     (by decide)⟩

/-- Claim C8: the trust-store add is an idempotent upsert keyed by the
signing public key: the same add twice equals the add once; when the key
is already present the store does not grow; and afterwards the key is
bound to the new record, whose encryption public key is the freshly
supplied one (overwriting any prior record). -/
theorem trust_add_idempotent_upsert
    (s : ServiceState) (pk bpk : String) (name : Option String)
    (perms : Option (List String)) (now : Nat)
    (hpresent : mhas s.trustedKeys pk = true) :
    apiAddTrusted (apiAddTrusted s pk bpk name perms now) pk bpk name perms now =
      apiAddTrusted s pk bpk name perms now
    ∧ (apiAddTrusted s pk bpk name perms now).trustedKeys.length = s.trustedKeys.length
    ∧ mget (apiAddTrusted s pk bpk name perms now).trustedKeys pk =
        some { boxPublicKey := bpk, name := name.getD "Unknown",
               permissions := perms.getD ["read"], trustedAt := now } := by
  refine ⟨?_, ?_, ?_⟩
  · simp [apiAddTrusted, mset_idem]
  · simp only [apiAddTrusted]
    exact length_mset_of_mhas _ hpresent
  · simp only [apiAddTrusted]
    exact mget_mset_self _ _ _

/-- Witness for claim C8 at concrete inputs: re-adding the already-present
key `pkR` with a new encryption key. -/
theorem trust_add_idempotent_upsert_wit :
    mhas sampleState.trustedKeys "pkR" = true
    ∧ (apiAddTrusted (apiAddTrusted sampleState "pkR" "boxNew" (some "R2") (some ["read"]) 99)
          "pkR" "boxNew" (some "R2") (some ["read"]) 99 =
        apiAddTrusted sampleState "pkR" "boxNew" (some "R2") (some ["read"]) 99
       ∧ (apiAddTrusted sampleState "pkR" "boxNew" (some "R2") (some ["read"]) 99).trustedKeys.length =
           sampleState.trustedKeys.length
       ∧ mget (apiAddTrusted sampleState "pkR" "boxNew" (some "R2") (some ["read"]) 99).trustedKeys
           "pkR" =
         some { boxPublicKey := "boxNew", name := (some "R2").getD "Unknown",
                permissions := (some ["read"]).getD ["read"], trustedAt := 99 }) :=
  ⟨rfl,
   trust_add_idempotent_upsert sampleState "pkR" "boxNew" (some "R2") (some ["read"]) 99 rfl⟩

end TrustDiary
